import Mathlib

/-!
A verification development for the `xconfigdotenv` decoder
(`src/decoders/xconfigdotenv/dotenv.go` of dv-net/xconfig).

The decoder takes a flat mapping of string keys to string values (already
produced by the external `.env` parser, which is out of scope here) and lays
the values out into an arbitrary Go structure, resolving each
underscore-delimited key against field names by a longest-prefix-first,
declaration-order search.

Shallow embedding conventions:
* Go strings are modelled as `List Char` (`Str`), restricted to the ASCII
  fragment for case conversion (`strings.ToLower` is modelled on ASCII
  letters only; no key or field name in any claim leaves ASCII).
* The flat map produced by `godotenv.UnmarshalBytes` is modelled as an
  association list `List (Str × Str)`; Go iterates a `map[string]string`
  in unspecified order, so theorems quantify over the processing order.
* `reflect.Value`s are modelled by the inductive `GoVal`, with the static
  type information reflected into `GoType`.  A Go struct value is the list
  of its fields, each a `(name, declared type, value)` triple; pointer,
  map and slice values are `Option`s so that Go's `nil`/allocated
  distinction (`IsNil`) is observable.  Floating-point and complex field
  types are outside the model (no claim concerns them); the corresponding
  branches of `setBasicValue` are therefore absent.
* `getFieldValue`/`setWithReflect` from the source bypass field
  accessibility restrictions so that every field of an addressable
  destination is readable and writable; since `Unmarshal` is only entered
  with an addressable destination (a dereferenced non-nil pointer) and
  every descent in the source preserves addressability, reads and writes
  in the model always succeed and the two helpers collapse into plain
  functional update.
* Errors built with `fmt.Errorf` are modelled as their rendered message
  strings.  A `reflect` panic (an unwound process abort, which is *not*
  wrapped by `Unmarshal`'s `key %q:` wrapping) is kept distinct from a
  returned `error` by the `Failure` type.
-/

set_option autoImplicit false

namespace XCfg

abbrev Str := List Char

/-- String literal helper: a Go string literal as a `Str`. -/
def lit (s : String) : Str := s.data

/-- ASCII fragment of the case mapping used by `strings.ToLower`. -/
def toLowerChar (c : Char) : Char :=
  if 'A' ≤ c ∧ c ≤ 'Z' then Char.ofNat (c.toNat + 32) else c

/-- `normalize` from the source: lower-case, then delete every `'_'`
(`strings.ToLower` followed by `strings.ReplaceAll(s, "_", "")`). -/
def normalize (s : Str) : Str :=
  (s.map toLowerChar).filter (fun c => c ≠ '_')

/-- `strings.Split(s, "_")`: split on every underscore, keeping empty
segments; always returns at least one segment. -/
def splitUnderscore : Str → List Str
  | [] => [[]]
  | c :: rest =>
    if c = '_' then [] :: splitUnderscore rest
    else
      match splitUnderscore rest with
      | [] => [[c]]
      | s :: ss => (c :: s) :: ss

/-- `strings.Join(ss, "_")`. -/
def joinUnderscore : List Str → Str
  | [] => []
  | a :: bs => a ++ bs.flatMap (fun b => '_' :: b)

/-- Go `%q` formatting of a string (printable-ASCII fragment: only the
quote and backslash need escaping for the strings appearing here). -/
def goQuoteChar (c : Char) : Str :=
  if c = '"' ∨ c = '\\' then ['\\', c] else [c]

/-- Go `%q` of a string value. -/
def goQuote (s : Str) : Str :=
  '"' :: s.flatMap goQuoteChar ++ ['"']

/-- Space-joined elements, used by Go `%v` on `[]string`. -/
def joinSpace : List Str → Str
  | [] => []
  | a :: bs => a ++ bs.flatMap (fun b => ' ' :: b)

/-- Go `%v` of a `[]string` value: `[a b c]`. -/
def goFmtStrSlice (ss : List Str) : Str :=
  '[' :: (joinSpace ss ++ [']'])

/-! ### Scalar parsing (`strconv`, `time.ParseDuration`) -/

/-- Decimal digit value. -/
def digitVal (c : Char) : Option Nat :=
  if '0' ≤ c ∧ c ≤ '9' then some (c.toNat - 48) else none

/-- Accumulate a run of decimal digits (the whole string must be digits). -/
def parseDigitsAux (acc : Nat) : Str → Option Nat
  | [] => some acc
  | c :: rest =>
    match digitVal c with
    | none => none
    | some d => parseDigitsAux (acc * 10 + d) rest

/-- A non-empty all-digit string as a natural number. -/
def parseDigits (s : Str) : Option Nat :=
  if s = [] then none else parseDigitsAux 0 s

/-- `strconv.Atoi` (= `strconv.ParseInt(s, 10, 0)` on a 64-bit platform):
optional sign, non-empty decimal digits, 64-bit signed range.  The caller
in the source discards the error's message, so `Option` suffices. -/
def atoi (s : Str) : Option Int :=
  match s with
  | [] => none
  | c :: rest =>
    let (neg, digits) :=
      if c = '-' then (true, rest)
      else if c = '+' then (false, rest)
      else (false, s)
    match parseDigits digits with
    | none => none
    | some n =>
      let v : Int := if neg then -(n : Int) else (n : Int)
      if -(2 ^ 63) ≤ v ∧ v < 2 ^ 63 then some v else none

/-- `strconv.ParseBool`. -/
def parseBool (s : Str) : Option Bool :=
  if s = lit "1" ∨ s = lit "t" ∨ s = lit "T" ∨ s = lit "true" ∨
      s = lit "TRUE" ∨ s = lit "True" then some true
  else if s = lit "0" ∨ s = lit "f" ∨ s = lit "F" ∨ s = lit "false" ∨
      s = lit "FALSE" ∨ s = lit "False" then some false
  else none

/-- `strconv.ParseInt(s, 10, bits)`: optional sign, non-empty decimal
digits (underscores are rejected since the base is explicit), value
range-checked against the declared bit width.  Errors carry the rendered
`*strconv.NumError` message. -/
def parseIntB (bits : Nat) (s : Str) : Except Str Int :=
  let syntaxErr : Str :=
    lit "strconv.ParseInt: parsing " ++ goQuote s ++ lit ": invalid syntax"
  let rangeErr : Str :=
    lit "strconv.ParseInt: parsing " ++ goQuote s ++ lit ": value out of range"
  match s with
  | [] => .error syntaxErr
  | c :: rest =>
    let (neg, digits) :=
      if c = '-' then (true, rest)
      else if c = '+' then (false, rest)
      else (false, s)
    match parseDigits digits with
    | none => .error syntaxErr
    | some n =>
      let v : Int := if neg then -(n : Int) else (n : Int)
      if -(2 ^ (bits - 1)) ≤ v ∧ v ≤ 2 ^ (bits - 1) - 1 then .ok v
      else .error rangeErr

/-- `strconv.ParseUint(s, 10, bits)`: no sign permitted. -/
def parseUintB (bits : Nat) (s : Str) : Except Str Nat :=
  let syntaxErr : Str :=
    lit "strconv.ParseUint: parsing " ++ goQuote s ++ lit ": invalid syntax"
  let rangeErr : Str :=
    lit "strconv.ParseUint: parsing " ++ goQuote s ++ lit ": value out of range"
  match parseDigits s with
  | none => .error syntaxErr
  | some n => if n ≤ 2 ^ bits - 1 then .ok n else .error rangeErr


/-- `time/format.go` `leadingInt`: consume leading decimal digits into a
64-bit accumulator; `.error` models `errLeadingInt` (overflow). -/
def leadingInt : Str → Except Unit (Nat × Str)
  | [] => .ok (0, [])
  | c :: rest =>
    match digitVal c with
    | none => .ok (0, c :: rest)
    | some _ => leadingIntAux 0 (c :: rest)
where
  leadingIntAux (x : Nat) : Str → Except Unit (Nat × Str)
    | [] => .ok (x, [])
    | c :: rest =>
      match digitVal c with
      | none => .ok (x, c :: rest)
      | some d =>
        if x > 2 ^ 63 / 10 then .error ()
        else
          let x' := x * 10 + d
          if x' > 2 ^ 63 then .error () else leadingIntAux x' rest

/-- `time/format.go` `leadingFraction`: consume digits after the decimal
point, returning the accumulated numerator, the scale `10^digits` (held
as a natural number; Go holds it as a `float64`), and the rest.  Once the
accumulator would overflow, further digits are consumed but ignored. -/
def leadingFraction (s : Str) : Nat × Nat × Str :=
  go 0 1 false s
where
  go (x scale : Nat) (overflow : Bool) : Str → Nat × Nat × Str
    | [] => (x, scale, [])
    | c :: rest =>
      match digitVal c with
      | none => (x, scale, c :: rest)
      | some d =>
        if overflow then go x scale overflow rest
        else if x > (2 ^ 63 - 1) / 10 then go x scale true rest
        else
          let y := x * 10 + d
          if y > 2 ^ 63 then go x scale true rest
          else go y (scale * 10) overflow rest

/-- `time.ParseDuration`'s unit table. -/
def unitMap (u : Str) : Option Nat :=
  if u = lit "ns" then some 1
  else if u = lit "us" then some 1000
  else if u = lit "µs" then some 1000
  else if u = lit "μs" then some 1000
  else if u = lit "ms" then some 1000000
  else if u = lit "s" then some 1000000000
  else if u = lit "m" then some 60000000000
  else if u = lit "h" then some 3600000000000
  else none

/-- Split off the unit token: the run of characters up to the next digit
or `'.'` (the inner `for` loop of `ParseDuration`). -/
def spanUnit : Str → Str × Str
  | [] => ([], [])
  | c :: rest =>
    if c = '.' ∨ ('0' ≤ c ∧ c ≤ '9') then ([], c :: rest)
    else
      let (u, r) := spanUnit rest
      (c :: u, r)

/-- One pass of `time.ParseDuration`'s main loop, with fuel (each
iteration consumes at least the non-empty unit token, so
`s.length + 1` fuel always suffices).  `d` is the accumulated duration
in nanoseconds.  The fractional contribution
`uint64(float64(f) * (float64(unit) / scale))` is modelled by the exact
integer `f * unit / scale`; no claim exercises fractional magnitudes. -/
def parseDurLoop (invalidErr : Str) (orig : Str) : Nat → Str → Nat → Except Str Nat
  | 0, _, _ => .error invalidErr
  | _ + 1, [], d => .ok d
  | fuel + 1, c :: s0, d =>
    if ¬(c = '.' ∨ ('0' ≤ c ∧ c ≤ '9')) then .error invalidErr
    else
      match leadingInt (c :: s0) with
      | .error _ => .error invalidErr
      | .ok (v, s1) =>
        let pre : Bool := s1.length != (c :: s0).length
        let (f, scale, s2, post) :=
          match s1 with
          | '.' :: s1' =>
            let (f, scale, rem) := leadingFraction s1'
            (f, scale, rem, (rem.length != s1'.length : Bool))
          | _ => (0, 1, s1, false)
        if !pre && !post then .error invalidErr
        else
          let (u, s3) := spanUnit s2
          if u = [] then
            .error (lit "time: missing unit in duration " ++ goQuote orig)
          else
            match unitMap u with
            | none =>
              .error (lit "time: unknown unit " ++ goQuote u ++
                lit " in duration " ++ goQuote orig)
            | some unit =>
              if v > 2 ^ 63 / unit then .error invalidErr
              else
                let v1 := v * unit
                let v2 := if f > 0 then v1 + f * unit / scale else v1
                if v2 > 2 ^ 63 then .error invalidErr
                else
                  let d' := d + v2
                  if d' > 2 ^ 63 then .error invalidErr
                  else parseDurLoop invalidErr orig fuel s3 d'

/-- `time.ParseDuration`: result in nanoseconds. -/
def parseDuration (orig : Str) : Except Str Int :=
  let invalidErr : Str := lit "time: invalid duration " ++ goQuote orig
  let (neg, s) :=
    match orig with
    | [] => (false, ([] : Str))
    | c :: rest =>
      if c = '-' then (true, rest)
      else if c = '+' then (false, rest)
      else (false, orig)
  if s = lit "0" then .ok 0
  else if s = [] then .error invalidErr
  else
    match parseDurLoop invalidErr orig (s.length + 1) s 0 with
    | .error e => .error e
    | .ok d =>
      if neg then .ok (-(d : Int))
      else if d > 2 ^ 63 - 1 then .error invalidErr
      else .ok (d : Int)

/-! ### The data model: Go types and values under `reflect` -/

/-- The static type of a destination field, as seen through `reflect`.
Field resolution consults `reflect.StructField.Name` and
`Type.Name()`; descent dispatches on `Kind()`.  `duration` stands for
`time.Duration`, which `setBasicValue` special-cases by type identity
before switching on the kind.  `iface` is the empty interface
(`interface{}` with no methods).  Floating-point and complex types are
outside the model. -/
inductive GoType where
  | str : GoType
  | bool : GoType
  | int (bits : Nat) : GoType
  | uint (bits : Nat) : GoType
  | duration : GoType
  | ptr (elem : GoType) : GoType
  | map (key : GoType) (val : GoType) : GoType
  | slice (elem : GoType) : GoType
  | struct (tname : Str) (fields : List (Str × GoType)) : GoType
  | iface : GoType

/-- A runtime value.  A struct value carries its fields as
`(name, declared type, value)` triples, mirroring what `reflect` exposes
of a struct: per-field `StructField` metadata plus the field value.
Pointer, map and slice values are `Option`s: `none` is Go `nil`. -/
inductive GoVal where
  | vstr (s : Str) : GoVal
  | vbool (b : Bool) : GoVal
  | vint (v : Int) : GoVal
  | vuint (v : Nat) : GoVal
  | vduration (ns : Int) : GoVal
  | vptr (p : Option GoVal) : GoVal
  | vmap (entries : Option (List (Str × GoVal))) : GoVal
  | vslice (elems : Option (List GoVal)) : GoVal
  | vstruct (fields : List (Str × GoType × GoVal)) : GoVal

/-- A struct value's field list (the shape `assignValue` recurses into). -/
abbrev FieldV := Str × GoType × GoVal

/-- `reflect.Type.Name()` of the declared type: named types report their
name, unnamed composites (pointers, maps, slices, the empty interface)
report the empty string.  `time.Duration` reports `"Duration"`.  The
sized integer kinds share the name of their kind here; no claim
distinguishes `int` from `int8`/`int16`/`int32`/`int64` by type name. -/
def typeName : GoType → Str
  | .str => lit "string"
  | .bool => lit "bool"
  | .int _ => lit "int"
  | .uint _ => lit "uint"
  | .duration => lit "Duration"
  | .ptr _ => []
  | .map _ _ => []
  | .slice _ => []
  | .struct tn _ => tn
  | .iface => []

/-- `reflect.Kind.String()` for the kinds the model can print in error
messages (the sized integer kinds again share their family's name; no
claim prints a sized kind). -/
def kindStr : GoType → Str
  | .str => lit "string"
  | .bool => lit "bool"
  | .int _ => lit "int"
  | .uint _ => lit "uint"
  | .duration => lit "int64"
  | .ptr _ => lit "ptr"
  | .map _ _ => lit "map"
  | .slice _ => lit "slice"
  | .struct _ _ => lit "struct"
  | .iface => lit "interface"

mutual
/-- The zero value of a type (`reflect.New(t).Elem()`). -/
def zeroVal : GoType → GoVal
  | .str => .vstr []
  | .bool => .vbool false
  | .int _ => .vint 0
  | .uint _ => .vuint 0
  | .duration => .vduration 0
  | .ptr _ => .vptr none
  | .map _ _ => .vmap none
  | .slice _ => .vslice none
  | .struct _ fts => .vstruct (zeroFields fts)
  | .iface => .vstr []

/-- Zero values of a struct type's fields. -/
def zeroFields : List (Str × GoType) → List FieldV
  | [] => []
  | (n, t) :: rest => (n, t, zeroVal t) :: zeroFields rest
end

/-- Pointee of a pointer value (`none` when the value is `nil` or not a
pointer; `assignValue` only consults this on pointer-typed fields). -/
def asPtr : GoVal → Option GoVal
  | .vptr p => p
  | _ => none

/-- Entries of a map value (`none` = Go `nil` map). -/
def asMap : GoVal → Option (List (Str × GoVal))
  | .vmap e => e
  | _ => none

/-- Elements of a slice value (`none` = Go `nil` slice). -/
def asSlice : GoVal → Option (List GoVal)
  | .vslice e => e
  | _ => none

/-- Field triples of a struct value. -/
def asStructFields : GoVal → List FieldV
  | .vstruct fs => fs
  | _ => []

/-- A decode failure: either an `error` value returned to the caller
(carrying its rendered message) or an unrecovered runtime panic (which
unwinds past `Unmarshal` without being wrapped). -/
inductive Failure where
  | err (msg : Str) : Failure
  | panicked (msg : Str) : Failure
deriving DecidableEq

/-- Result of a step of the decoder. -/
abbrev Res (α : Type) := Except Failure α

/-! ### Field resolution -/

/-- The per-field test of the inner loop of `assignValue`: the field is
skipped iff neither its normalized name nor its normalized declared-type
name equals the normalized candidate. -/
def fieldMatches (f : FieldV) (cand : Str) : Bool :=
  normalize f.1 == cand || normalize (typeName f.2.1) == cand

/-- The inner loop of `assignValue` over the record's fields in
declaration order: index and field of the first match. -/
def findFieldIdx : List FieldV → Str → Option (Nat × FieldV)
  | [], _ => none
  | f :: fs, cand =>
    if fieldMatches f cand then some (0, f)
    else
      match findFieldIdx fs cand with
      | some (i, g) => some (i + 1, g)
      | none => none

/-- The outer loop of `assignValue`: try joined-and-normalized leading
segment runs of length `k, k-1, …, 1`; at the first length at which some
field matches, commit to that length and that field (the source
`return`s out of both loops on every match).  Returns
(matched length, field index, field). -/
def resolveMatch (fields : List FieldV) (parts : List Str) : Nat → Option (Nat × Nat × FieldV)
  | 0 => none
  | k + 1 =>
    match findFieldIdx fields (normalize (joinUnderscore (parts.take (k + 1)))) with
    | some (i, f) => some (k + 1, i, f)
    | none => resolveMatch fields parts k

/-! ### Scalar coercion (`setBasicValue`) and map writes (`setMapValue`) -/

/-- `setBasicValue`: convert `rawVal` into the field's type.
`time.Duration` is special-cased by type identity first; then the switch
on the kind handles the scalar kinds and pointers (a `nil` pointer is
allocated and the write recurses into the pointee); every other kind is
an "unsupported kind" error.  The incoming `GoVal` is only consulted for
an existing pointee. -/
def setBasicValue : GoType → GoVal → Str → Res GoVal
  | .duration, _, rawVal =>
    match parseDuration rawVal with
    | .error e =>
      .error (.err (lit "cannot parse " ++ goQuote rawVal ++ lit " as Duration: " ++ e))
    | .ok d => .ok (.vduration d)
  | .str, _, rawVal => .ok (.vstr rawVal)
  | .bool, _, rawVal =>
    match parseBool rawVal with
    | none =>
      .error (.err (lit "cannot parse " ++ goQuote rawVal ++ lit " as bool: " ++
        lit "strconv.ParseBool: parsing " ++ goQuote rawVal ++ lit ": invalid syntax"))
    | some b => .ok (.vbool b)
  | .int bits, _, rawVal =>
    match parseIntB bits rawVal with
    | .error e =>
      .error (.err (lit "cannot parse " ++ goQuote rawVal ++ lit " as int: " ++ e))
    | .ok v => .ok (.vint v)
  | .uint bits, _, rawVal =>
    match parseUintB bits rawVal with
    | .error e =>
      .error (.err (lit "cannot parse " ++ goQuote rawVal ++ lit " as uint: " ++ e))
    | .ok v => .ok (.vuint v)
  | .ptr et, v, rawVal =>
    let inner := (asPtr v).getD (zeroVal et)
    Except.map (fun v' => GoVal.vptr (some v')) (setBasicValue et inner rawVal)
  | t, _, rawVal =>
    .error (.err (lit "unsupported kind " ++ kindStr t ++ lit " for value " ++ goQuote rawVal))

/-- `reflect.Value.SetMapIndex` on an association-list model of a Go
map: replace the entry if the key is present, append it otherwise. -/
def mapSetIndex (entries : List (Str × GoVal)) (k : Str) (v : GoVal) : List (Str × GoVal) :=
  match entries with
  | [] => [(k, v)]
  | (k0, v0) :: rest =>
    if k0 = k then (k, v) :: rest else (k0, v0) :: mapSetIndex rest k v

/-- `setMapValue`: string keys only; the value is the raw string when
the map's value type is the empty interface, otherwise it is coerced
into a fresh zero value of the map's value type by `setBasicValue`. -/
def setMapValue (keyT valT : GoType) (entries : List (Str × GoVal)) (mapKey rawVal : Str) :
    Res (List (Str × GoVal)) :=
  if ¬(keyT matches .str) then
    .error (.err (lit "unsupported map key type " ++ kindStr keyT ++
      lit "; only string keys allowed"))
  else
    match valT with
    | .iface => .ok (mapSetIndex entries mapKey (.vstr rawVal))
    | _ =>
      match setBasicValue valT (zeroVal valT) rawVal with
      | .error e => .error e
      | .ok cv => .ok (mapSetIndex entries mapKey cv)

/-! ### The path assignment engine (`assignValue`) -/

/-- The matched length returned by `resolveMatch` is between 1 and the
fuel bound (needed for the termination of `assignValue`). -/
theorem resolveMatch_bounds (fields : List FieldV) (parts : List Str) :
    ∀ k p i f, resolveMatch fields parts k = some (p, i, f) → 1 ≤ p ∧ p ≤ k := by
  intro k
  induction k with
  | zero => intro p i f h; simp [resolveMatch] at h
  | succ k ih =>
    intro p i f h
    rw [resolveMatch] at h
    cases hf : findFieldIdx fields (normalize (joinUnderscore (parts.take (k + 1)))) with
    | some v =>
      rw [hf] at h
      cases h
      omega
    | none =>
      rw [hf] at h
      have := ih p i f h
      omega

/-- The body of `assignValue`, with an explicit structural bound.  Every
recursive call of the source strictly shrinks the segment list (the
matched run has length at least 1), so calling with `fuel ≥ parts.length + 1`
keeps the fuel above the segment count at every level and the `fuel = 0`
branch is unreachable; the recursion is then structural in `fuel` and the
definition evaluates by reduction.

The source mutates the destination in place through `reflect`
(`getFieldValue` / `setWithReflect` bypass accessibility on an
addressable destination and never fail there); the model instead
returns the updated field list, discarding any mutation already made on
an aborting path — no claim observes the destination after a failure.
The source's search loops `return` out on the first match, so search
(`resolveMatch`) and dispatch commute with the loop structure verbatim.
The `len(leftover) == 0` test inside the source's map branch is dead
code (the empty-leftover case has already returned) and has no
counterpart here.  `reflect.Value.Index` panics on an out-of-range
index, hence the `panicked` outcome for a negative index, and
`Type.NumField` panics when the recursion behind a slice-element
pointer reaches a non-struct. -/
def assignValueF : Nat → List FieldV → List Str → Str → Res (List FieldV)
  | 0, fields, _, _ => .ok fields
  | fuel + 1, fields, parts, rawVal =>
  match resolveMatch fields parts parts.length with
  | none => .ok fields
  | some (p, i, fld) =>
    let fname := fld.1
    let ftype := fld.2.1
    let fval := fld.2.2
    match parts.drop p with
    | [] => Except.map (fun v' => fields.set i (fname, ftype, v')) (setBasicValue ftype fval rawVal)
    | seg :: restSeg =>
      match ftype with
      | .ptr et =>
        let pv := (asPtr fval).getD (zeroVal et)
        match et with
        | .struct _ _ =>
          Except.map (fun fs' => fields.set i (fname, ftype, .vptr (some (.vstruct fs'))))
            (assignValueF fuel (asStructFields pv) (seg :: restSeg) rawVal)
        | _ =>
          .error (.err (lit "cannot descend into pointer field " ++ goQuote fname ++
            lit " (kind " ++ kindStr et ++ lit "), leftover " ++
            goFmtStrSlice (seg :: restSeg)))
      | .struct _ _ =>
        Except.map (fun fs' => fields.set i (fname, ftype, .vstruct fs'))
          (assignValueF fuel (asStructFields fval) (seg :: restSeg) rawVal)
      | .map kt vt =>
        let entries := (asMap fval).getD []
        let mapKey := joinUnderscore (seg :: restSeg)
        Except.map (fun es => fields.set i (fname, ftype, .vmap (some es)))
          (setMapValue kt vt entries mapKey rawVal)
      | .slice et =>
        match atoi seg with
        | none =>
          .error (.err (lit "cannot parse slice index " ++ goQuote seg ++
            lit " for field " ++ goQuote fname))
        | some ix =>
          let elems := (asSlice fval).getD []
          let elems2 :=
            if (elems.length : Int) ≤ ix then
              elems ++ List.replicate ((ix + 1).toNat - elems.length) (zeroVal et)
            else elems
          if ix < 0 ∨ (elems2.length : Int) ≤ ix then
            .error (.panicked (lit "reflect: slice index out of range"))
          else
            let n := ix.toNat
            let elemVal := elems2.getD n (zeroVal et)
            match restSeg with
            | [] =>
              Except.map
                (fun v' => fields.set i (fname, ftype, .vslice (some (elems2.set n v'))))
                (setBasicValue et elemVal rawVal)
            | _ :: _ =>
              match et with
              | .ptr et2 =>
                let inner := (asPtr elemVal).getD (zeroVal et2)
                match et2 with
                | .struct _ _ =>
                  Except.map
                    (fun fs' => fields.set i
                      (fname, ftype, .vslice (some (elems2.set n (.vptr (some (.vstruct fs')))))))
                    (assignValueF fuel (asStructFields inner) restSeg rawVal)
                | _ => .error (.panicked (lit "reflect: NumField of non-struct type"))
              | .struct _ _ =>
                Except.map
                  (fun fs' => fields.set i
                    (fname, ftype, .vslice (some (elems2.set n (.vstruct fs')))))
                  (assignValueF fuel (asStructFields elemVal) restSeg rawVal)
              | _ =>
                .error (.err (lit "cannot descend into slice element kind " ++ kindStr et ++
                  lit " for field " ++ goQuote fname))
      | _ =>
        .error (.err (lit "cannot descend into field " ++ goQuote fname ++
          lit " (kind " ++ kindStr ftype ++ lit "), leftover " ++
          goFmtStrSlice (seg :: restSeg)))
/-- `assignValue`: try to place `rawVal` at the location addressed by
`parts` inside the record given by `fields`, rebuilding the record. -/
def assignValue (fields : List FieldV) (parts : List Str) (rawVal : Str) : Res (List FieldV) :=
  assignValueF (parts.length + 1) fields parts rawVal

/-! ### The decoder entry point (`Unmarshal`) -/

/-- Step 3 of `Unmarshal`: feed each key/value pair of the flat mapping
into `assignValue`, wrapping the first returned error with the offending
raw key and aborting.  The destination-shape validation (steps 1–2 of
the source) and the `.env` text parsing are outside the model: `fields`
is the already-validated dereferenced destination struct, and `pairs`
is the flat mapping in one of the iteration orders Go may choose for a
`map[string]string`.  The `len(parts) == 0` guard is kept although
`strings.Split` never returns an empty slice.  A panic unwinds without
being wrapped. -/
def unmarshal (pairs : List (Str × Str)) (fields : List FieldV) : Res (List FieldV) :=
  match pairs with
  | [] => .ok fields
  | (rawKey, rawVal) :: rest =>
    let parts := splitUnderscore rawKey
    if parts = [] then unmarshal rest fields
    else
      match assignValue fields parts rawVal with
      | .error (.err m) =>
        .error (.err (lit "xconfigdotenv: Unmarshal: key " ++ goQuote rawKey ++ lit ": " ++ m))
      | .error (.panicked m) => .error (.panicked m)
      | .ok fields' => unmarshal rest fields'

/-! ### Basic lemmas about normalization and joining -/

theorem normalize_append (x y : Str) :
    normalize (x ++ y) = normalize x ++ normalize y := by
  simp [normalize, List.filter_append]

theorem normalize_underscore_cons (b : Str) :
    normalize ('_' :: b) = normalize b := by
  simp [normalize, toLowerChar]

/-- Normalization ignores the underscores introduced by joining:
normalizing a joined segment list is normalizing the segments and
concatenating. -/
theorem normalize_join (ss : List Str) :
    normalize (joinUnderscore ss) = ss.flatMap normalize := by
  cases ss with
  | nil => simp [joinUnderscore, normalize]
  | cons a bs =>
    rw [joinUnderscore, normalize_append, List.flatMap_cons]
    congr 1
    induction bs with
    | nil => simp [normalize]
    | cons b bs ih =>
      simp only [List.flatMap_cons]
      have hshape : (fun b => '_' :: b) b ++ bs.flatMap (fun b => '_' :: b) =
          '_' :: (b ++ bs.flatMap (fun b => '_' :: b)) := rfl
      rw [hshape, normalize_underscore_cons, normalize_append, ih]

theorem splitUnderscore_ne_nil (s : Str) : splitUnderscore s ≠ [] := by
  cases s with
  | nil => simp [splitUnderscore]
  | cons c rest =>
    rw [splitUnderscore]
    split
    · simp
    · cases splitUnderscore rest <;> simp

/-! ### Characterization of the field search -/

instance : Inhabited GoType := ⟨.str⟩

instance : Inhabited GoVal := ⟨.vstr []⟩

/-- The inner loop returns the first field, in declaration order, that
matches the candidate. -/
theorem findFieldIdx_eq_some (fs : List FieldV) (cand : Str) :
    ∀ i f, findFieldIdx fs cand = some (i, f) →
      fs.get? i = some f ∧ fieldMatches f cand = true ∧
        ∀ j g, j < i → fs.get? j = some g → fieldMatches g cand = false := by
  induction fs with
  | nil => intro i f h; simp [findFieldIdx] at h
  | cons f0 fs ih =>
    intro i f h
    rw [findFieldIdx] at h
    by_cases hf : fieldMatches f0 cand
    · simp only [hf, if_true] at h
      cases h
      refine ⟨rfl, hf, ?_⟩
      intro j g hj
      omega
    · simp only [hf, if_false] at h
      cases hrec : findFieldIdx fs cand with
      | none => rw [hrec] at h; cases h
      | some v =>
        obtain ⟨i', f'⟩ := v
        rw [hrec] at h
        cases h
        obtain ⟨h1, h2, h3⟩ := ih _ _ hrec
        refine ⟨h1, h2, ?_⟩
        intro j g hj hg
        cases j with
        | zero =>
          simp only [List.get?_cons_zero, Option.some.injEq] at hg
          subst hg
          simpa using hf
        | succ j' =>
          simp only [List.get?_cons_succ] at hg
          exact h3 j' g (by omega) hg

/-- The inner loop finds nothing iff no field matches. -/
theorem findFieldIdx_eq_none (fs : List FieldV) (cand : Str) :
    findFieldIdx fs cand = none ↔ ∀ f ∈ fs, fieldMatches f cand = false := by
  induction fs with
  | nil => simp [findFieldIdx]
  | cons f0 fs ih =>
    rw [findFieldIdx]
    by_cases hf : fieldMatches f0 cand
    · simp only [hf, if_true]
      constructor
      · intro hc; cases hc
      · intro hall
        exact absurd hf (by simpa using hall f0 (List.mem_cons_self ..))
    · simp only [hf, if_false]
      cases hrec : findFieldIdx fs cand with
      | none =>
        simp only [true_iff, List.mem_cons]
        constructor
        · intro _ g hg
          rcases hg with rfl | hg
          · simpa using hf
          · exact (ih.mp hrec) g hg
        · intro _; rfl
      | some v =>
        constructor
        · intro hc; cases hc
        · intro hall
          have : findFieldIdx fs cand = none :=
            ih.mpr (fun g hg => hall g (List.mem_cons_of_mem _ hg))
          rw [this] at hrec
          cases hrec

/-- What a successful outer-loop search means: the matched length `p` is
in `[1, k]`, the inner loop succeeded at length `p`, and at every longer
length (up to `k`) the inner loop found nothing — the source tries
lengths longest-first and `return`s out at the first length with a
matching field. -/
theorem resolveMatch_eq_some (fields : List FieldV) (parts : List Str) :
    ∀ k p i f, resolveMatch fields parts k = some (p, i, f) →
      1 ≤ p ∧ p ≤ k ∧
        findFieldIdx fields (normalize (joinUnderscore (parts.take p))) = some (i, f) ∧
        ∀ q, p < q → q ≤ k →
          findFieldIdx fields (normalize (joinUnderscore (parts.take q))) = none := by
  intro k
  induction k with
  | zero => intro p i f h; simp [resolveMatch] at h
  | succ k ih =>
    intro p i f h
    rw [resolveMatch] at h
    cases hf : findFieldIdx fields (normalize (joinUnderscore (parts.take (k + 1)))) with
    | some v =>
      obtain ⟨i', f'⟩ := v
      rw [hf] at h
      cases h
      exact ⟨by omega, by omega, hf, fun q hq1 hq2 => by omega⟩
    | none =>
      rw [hf] at h
      obtain ⟨h1, h2, h3, h4⟩ := ih p i f h
      refine ⟨h1, by omega, h3, ?_⟩
      intro q hq1 hq2
      rcases Nat.lt_or_ge q (k + 1) with hq | hq
      · exact h4 q hq1 (by omega)
      · have : q = k + 1 := by omega
        subst this
        exact hf

/-- The outer loop exhausts without a match iff the inner loop fails at
every length in `[1, k]`. -/
theorem resolveMatch_eq_none (fields : List FieldV) (parts : List Str) :
    ∀ k, resolveMatch fields parts k = none ↔
      ∀ q, 1 ≤ q → q ≤ k →
        findFieldIdx fields (normalize (joinUnderscore (parts.take q))) = none := by
  intro k
  induction k with
  | zero => simp [resolveMatch]; intro q h1 h2; omega
  | succ k ih =>
    rw [resolveMatch]
    cases hf : findFieldIdx fields (normalize (joinUnderscore (parts.take (k + 1)))) with
    | some v =>
      simp only [reduceCtorEq, false_iff]
      intro hall
      have := hall (k + 1) (by omega) (by omega)
      rw [this] at hf
      cases hf
    | none =>
      rw [ih]
      constructor
      · intro hall q h1 h2
        rcases Nat.lt_or_ge q (k + 1) with hq | hq
        · exact hall q h1 (by omega)
        · have : q = k + 1 := by omega
          subst this
          exact hf
      · intro hall q h1 h2
        exact hall q h1 (by omega)

/-- When the inner loop fails at every length above 1, the outer loop's
result is decided at length 1. -/
theorem resolveMatch_of_no_longer (fields : List FieldV) (parts : List Str) :
    ∀ k, 1 ≤ k →
      (∀ q, 1 < q → q ≤ k →
        findFieldIdx fields (normalize (joinUnderscore (parts.take q))) = none) →
      resolveMatch fields parts k =
        (findFieldIdx fields (normalize (joinUnderscore (parts.take 1)))).map
          (fun x => (1, x.1, x.2)) := by
  intro k
  induction k with
  | zero => intro h; omega
  | succ k ih =>
    intro _ hnol
    rw [resolveMatch]
    rcases Nat.eq_zero_or_pos k with hk | hk
    · subst hk
      cases hf : findFieldIdx fields (normalize (joinUnderscore (parts.take 1))) with
      | some v => simp [hf]
      | none => simp [hf, resolveMatch]
    · rw [hnol (k + 1) (by omega) (by omega)]
      exact ih hk (fun q h1 h2 => hnol q h1 (by omega))

/-! ### Auxiliary facts used to compute concrete resolutions -/

theorem toLowerChar_ne_underscore (c : Char) (h : c ≠ '_') : toLowerChar c ≠ '_' := by
  rw [toLowerChar]
  by_cases hu : 'A' ≤ c ∧ c ≤ 'Z'
  · rw [if_pos hu]
    intro heq
    have h1 : 65 ≤ c.toNat := hu.1
    have h2 : c.toNat ≤ 90 := hu.2
    have hv : (Char.ofNat (c.toNat + 32)).toNat = c.toNat + 32 := by
      rw [Char.ofNat, dif_pos (by omega : c.toNat + 32 < 55296 ∨
        57343 < c.toNat + 32 ∧ c.toNat + 32 < 1114112)]
      rfl
    have := congrArg Char.toNat heq
    rw [hv, show ('_').toNat = 95 from rfl] at this
    omega
  · rw [if_neg hu]
    exact h

theorem normalize_cons_ne_nil (c : Char) (rest : Str) (h : c ≠ '_') :
    normalize (c :: rest) ≠ [] := by
  rw [normalize, List.map_cons, List.filter_cons]
  rw [if_pos (by simpa using toLowerChar_ne_underscore c h)]
  exact List.cons_ne_nil _ _

/-- A string accepted by `strconv.Atoi` has a non-empty normalization
(its first character is a sign or a digit, none of which normalization
deletes). -/
theorem atoi_some_normalize_ne_nil (s : Str) (v : Int) (h : atoi s = some v) :
    normalize s ≠ [] := by
  match s with
  | [] => simp [atoi] at h
  | c :: rest =>
    rw [atoi] at h
    by_cases hm : c = '-'
    · subst hm
      exact normalize_cons_ne_nil _ rest (by decide)
    · by_cases hp : c = '+'
      · subst hp
        exact normalize_cons_ne_nil _ rest (by decide)
      · by_cases hu : c = '_'
        · subst hu
          simp only [if_neg hm, if_neg hp] at h
          rw [show parseDigits ('_' :: rest) = none from by
            rw [parseDigits, if_neg (by simp), parseDigitsAux]
            rfl] at h
          cases h
        · exact normalize_cons_ne_nil c rest hu

theorem ne_append_of_ne_nil (a x : Str) (h : x ≠ []) : a ++ x ≠ a := by
  intro he
  have := congrArg List.length he
  simp only [List.length_append] at this
  exact h (List.length_eq_zero.mp (by omega))

/-! ### Sequential processing of the flat mapping -/

/-- `unmarshal` is a fail-fast left fold: processing a concatenation is
processing the first part and, on success, processing the second part
into the result. -/
theorem unmarshal_append_bind (xs ys : List (Str × Str)) (fields : List FieldV) :
    unmarshal (xs ++ ys) fields =
      (unmarshal xs fields).bind (fun fields' => unmarshal ys fields') := by
  induction xs generalizing fields with
  | nil => rw [List.nil_append, unmarshal]; rfl
  | cons kv rest ih =>
    obtain ⟨rawKey, rawVal⟩ := kv
    rw [List.cons_append, unmarshal, unmarshal]
    simp only [if_neg (splitUnderscore_ne_nil rawKey)]
    cases assignValue fields (splitUnderscore rawKey) rawVal with
    | ok fields' => exact ih fields'
    | error e => cases e <;> rfl

/-! ### Concrete schemas used by witnesses and counterexamples -/

/-- A nested record type `ACfg` with a single string field `B`. -/
def aCfgT : GoType := .struct (lit "ACfg") [(lit "B", GoType.str)]

/-- Fields of a record with a nested record `A` and a string `AB`. -/
def exFieldsAB : List FieldV :=
  [(lit "A", aCfgT, zeroVal aCfgT), (lit "AB", GoType.str, GoVal.vstr [])]

/-- Fields of a record with an `Extra` field of struct type `Target`
declared before a string field named `Target`. -/
def exFieldsTarget : List FieldV :=
  [(lit "Extra", GoType.struct (lit "Target") [], GoVal.vstruct []),
   (lit "Target", GoType.str, GoVal.vstr [])]

/-- A single exported `int` field `Port`. -/
def exFieldsPort : List FieldV := [(lit "Port", GoType.int 64, GoVal.vint 0)]

/-- The pointee type of the optional reference field `Sub`. -/
def subCfgT : GoType := .struct (lit "SubCfg") [(lit "Port", GoType.int 64)]

/-- A single `nil` optional-reference field `Sub`. -/
def exFieldsSub : List FieldV := [(lit "Sub", GoType.ptr subCfgT, GoVal.vptr none)]

/-! ### The claims -/

/-- C1: for every record value, non-empty segment list and raw value,
the engine tries joined-and-normalized leading runs from the full length
down to 1, longest first, and commits to the first field match found;
within one length, ties among fields are decided by declaration order,
so a field matching at a longer length always wins over any field
matching only at a shorter length.  Stated as: whatever match the search
commits to satisfies — the matched field really matches the normalized
joined run of the committed length, no earlier-declared field matches at
that length, and no field at all matches at any longer length. -/
theorem c1_longest_match_first (fields : List FieldV) (parts : List Str)
    (p i : Nat) (f : FieldV)
    (h : resolveMatch fields parts parts.length = some (p, i, f)) :
    1 ≤ p ∧ p ≤ parts.length ∧
    fields.get? i = some f ∧
    fieldMatches f (normalize (joinUnderscore (parts.take p))) = true ∧
    (∀ j g, j < i → fields.get? j = some g →
      fieldMatches g (normalize (joinUnderscore (parts.take p))) = false) ∧
    (∀ q, p < q → q ≤ parts.length → ∀ g ∈ fields,
      fieldMatches g (normalize (joinUnderscore (parts.take q))) = false) := by
  obtain ⟨h1, h2, h3, h4⟩ := resolveMatch_eq_some fields parts parts.length p i f h
  obtain ⟨g1, g2, g3⟩ := findFieldIdx_eq_some fields _ _ _ h3
  exact ⟨h1, h2, g1, g2, g3,
    fun q hq1 hq2 g hg => (findFieldIdx_eq_none ..).mp (h4 q hq1 hq2) g hg⟩

/-- Witness for C1 at the schema `{A ACfg; AB string}` and key `A_B`:
the search commits to the full-length run `ab` on field `AB` (index 1),
not to the shorter run `a` on the nested record `A`. -/
theorem c1_longest_match_first_witness :
    resolveMatch exFieldsAB [lit "A", lit "B"] ([lit "A", lit "B"] : List Str).length =
      some (2, 1, (lit "AB", GoType.str, GoVal.vstr [])) ∧
    (1 ≤ 2 ∧ 2 ≤ ([lit "A", lit "B"] : List Str).length ∧
    exFieldsAB.get? 1 = some (lit "AB", GoType.str, GoVal.vstr []) ∧
    fieldMatches (lit "AB", GoType.str, GoVal.vstr [])
      (normalize (joinUnderscore (([lit "A", lit "B"] : List Str).take 2))) = true ∧
    (∀ j g, j < 1 → exFieldsAB.get? j = some g →
      fieldMatches g (normalize (joinUnderscore (([lit "A", lit "B"] : List Str).take 2))) = false) ∧
    (∀ q, 2 < q → q ≤ ([lit "A", lit "B"] : List Str).length → ∀ g ∈ exFieldsAB,
      fieldMatches g (normalize (joinUnderscore (([lit "A", lit "B"] : List Str).take q))) = false)) :=
  ⟨rfl, c1_longest_match_first exFieldsAB [lit "A", lit "B"] 2 1 _ rfl⟩

/-- C2 (amended): the Field Resolver makes a *single* pass over the
fields in declaration order and returns the first field whose normalized
name *or* normalized declared-type name equals the candidate; an
earlier-declared field matching only by type name is preferred over a
later field matching by name (there is no separate name-first pass). -/
theorem c2_resolver_single_pass (fs : List FieldV) (cand : Str) (i : Nat) (f : FieldV)
    (h : findFieldIdx fs cand = some (i, f)) :
    fs.get? i = some f ∧
    (normalize f.1 = cand ∨ normalize (typeName f.2.1) = cand) ∧
    ∀ j g, j < i → fs.get? j = some g →
      normalize g.1 ≠ cand ∧ normalize (typeName g.2.1) ≠ cand := by
  obtain ⟨h1, h2, h3⟩ := findFieldIdx_eq_some fs cand i f h
  refine ⟨h1, ?_, ?_⟩
  · simpa [fieldMatches] using h2
  · intro j g hj hg
    simpa [fieldMatches] using h3 j g hj hg

/-- Witness for C2 at the schema `{Port int}` and candidate `port`. -/
theorem c2_resolver_single_pass_witness :
    findFieldIdx exFieldsPort (lit "port") = some (0, (lit "Port", GoType.int 64, GoVal.vint 0)) ∧
    (exFieldsPort.get? 0 = some (lit "Port", GoType.int 64, GoVal.vint 0) ∧
    (normalize (lit "Port") = lit "port" ∨
      normalize (typeName (GoType.int 64)) = lit "port") ∧
    ∀ j g, j < 0 → exFieldsPort.get? j = some g →
      normalize g.1 ≠ lit "port" ∧ normalize (typeName g.2.1) ≠ lit "port") :=
  ⟨rfl, c2_resolver_single_pass exFieldsPort (lit "port") 0 _ rfl⟩

/-- Counterexample to C2 as stated: in the record
`{Extra Target; Target string}` (field `Extra` of a struct type named
`Target`, followed by a string field named `Target`), the candidate
`target` is claimed to resolve to the field named `Target` (a field-name
match anywhere should beat any type-name match), but the resolver
returns index 0 — the earlier field, which matches by type name only. -/
theorem c2_resolver_counterexample :
    findFieldIdx exFieldsTarget (lit "target") =
      some (0, (lit "Extra", GoType.struct (lit "Target") [], GoVal.vstruct [])) ∧
    normalize (lit "Target") = lit "target" ∧
    normalize (lit "Extra") ≠ lit "target" :=
  ⟨rfl, rfl, by decide⟩

/-- C3 (amended): a key whose segments match no field of the record at
any length is left entirely alone: `assignValue` returns success and the
record is returned unchanged.  (The original byte-for-byte claim fails
for keys whose leading run *does* match a composite field while the
leftover then matches nothing inside it — see the counterexample — so
this theorem covers the no-match-at-this-record case, which is also what
the recursion bottoms out on in the deep case.) -/
theorem c3_unknown_key_noop (fields : List FieldV) (parts : List Str) (rawVal : Str)
    (h : resolveMatch fields parts parts.length = none) :
    assignValue fields parts rawVal = .ok fields := by
  rw [assignValue, assignValueF, h]

/-- Witness for C3 at the schema `{Port int}` and key `NOPE`. -/
theorem c3_unknown_key_noop_witness :
    resolveMatch exFieldsPort [lit "NOPE"] ([lit "NOPE"] : List Str).length = none ∧
    assignValue exFieldsPort [lit "NOPE"] (lit "1") = .ok exFieldsPort :=
  ⟨rfl, c3_unknown_key_noop exFieldsPort [lit "NOPE"] (lit "1") rfl⟩

/-- Counterexample to C3 as stated: the key `SUB_NOPE` matches no field
path (`SubCfg` has no field matching `NOPE`), processing it returns
success — but the destination is *not* byte-for-byte unchanged: the
`nil` optional reference `Sub` has been allocated a zero-valued pointee
before the recursive descent discovered that nothing matches inside. -/
theorem c3_unknown_key_counterexample :
    assignValue exFieldsSub [lit "SUB", lit "NOPE"] (lit "v") =
      .ok [(lit "Sub", GoType.ptr subCfgT,
        GoVal.vptr (some (GoVal.vstruct [(lit "Port", GoType.int 64, GoVal.vint 0)])))] ∧
    [(lit "Sub", GoType.ptr subCfgT,
        GoVal.vptr (some (GoVal.vstruct [(lit "Port", GoType.int 64, GoVal.vint 0)])))] ≠
      exFieldsSub := by
  refine ⟨rfl, ?_⟩
  simp [exFieldsSub]

/-- A single string-slice field `Items`. -/
def exFieldsItems : List FieldV := [(lit "Items", GoType.slice GoType.str, GoVal.vslice none)]

/-- C4 — the code, not the claim, is at fault here.  A non-numeric index
segment fails with the per-key sequence-index error as the claim says,
but a *negative* index segment is accepted by `strconv.Atoi` and then
crashes in `reflect.Value.Index` — an unrecovered panic (process abort),
not a returned error value: decoding `ITEMS_-1=x` into `{Items []string}`
panics, while the claim (and §7's "all failures are values returned to
the caller") requires a returned per-key error. -/
theorem c4_negative_index_panics :
    unmarshal [(lit "ITEMS_-1", lit "x")] exFieldsItems =
      .error (.panicked (lit "reflect: slice index out of range")) ∧
    unmarshal [(lit "ITEMS_abc", lit "x")] exFieldsItems =
      .error (.err (lit "xconfigdotenv: Unmarshal: key \"ITEMS_abc\": cannot parse slice index \"abc\" for field \"Items\"")) :=
  ⟨rfl, rfl⟩

/-- A single string field `AB`. -/
def exFieldsABOnly : List FieldV := [(lit "AB", GoType.str, GoVal.vstr [])]

/-- C5 (amended): decoding is a deterministic, fail-fast, sequential
fold over the flat mapping: decoding a concatenation equals decoding the
first part and then the second into its result (so decoding the same
list twice into equal fresh destinations yields equal results).  Full
independence from the processing order does *not* hold: two distinct
keys can resolve to the same leaf (see the counterexample). -/
theorem c5_sequential_fold (xs ys : List (Str × Str)) (fields : List FieldV) :
    unmarshal (xs ++ ys) fields =
      (unmarshal xs fields).bind (fun fields' => unmarshal ys fields') :=
  unmarshal_append_bind xs ys fields

/-- Counterexample to C5 as stated: the distinct keys `A_B` and `AB`
both resolve to the field `AB` of `{AB string}`, so the two processing
orders of the same flat mapping succeed with different results. -/
theorem c5_order_dependence_counterexample :
    List.Perm [((lit "A_B", lit "") : Str × Str), (lit "AB", lit "22")]
      [(lit "AB", lit "22"), (lit "A_B", lit "")] ∧
    unmarshal [(lit "A_B", lit ""), (lit "AB", lit "22")] exFieldsABOnly =
      .ok [(lit "AB", GoType.str, GoVal.vstr (lit "22"))] ∧
    unmarshal [(lit "AB", lit "22"), (lit "A_B", lit "")] exFieldsABOnly =
      .ok [(lit "AB", GoType.str, GoVal.vstr (lit ""))] ∧
    (Except.ok [(lit "AB", GoType.str, GoVal.vstr (lit "22"))] : Res (List FieldV)) ≠
      .ok [(lit "AB", GoType.str, GoVal.vstr (lit ""))] := by
  refine ⟨List.Perm.swap .., rfl, rfl, ?_⟩
  simp [lit]

/-- C8: the decoder fails fast — after any prefix of keys that decodes
successfully, the first key whose assignment returns an error aborts the
whole decode, the failure is the offending raw key's error wrapped as
`… key "<rawKey>": <cause>`, and the keys after the failing one
contribute nothing (the result does not depend on them). -/
theorem c8_fail_fast (l1 l2 : List (Str × Str)) (k v : Str)
    (fields fields' : List FieldV) (c : Str)
    (h1 : unmarshal l1 fields = .ok fields')
    (h2 : assignValue fields' (splitUnderscore k) v = .error (.err c)) :
    unmarshal (l1 ++ (k, v) :: l2) fields =
      .error (.err (lit "xconfigdotenv: Unmarshal: key " ++ goQuote k ++ lit ": " ++ c)) := by
  rw [unmarshal_append_bind, h1]
  show unmarshal ((k, v) :: l2) fields' = _
  rw [unmarshal]
  simp only [if_neg (splitUnderscore_ne_nil k), h2]

/-- Witness for C8: after the empty prefix, the key `PORT=abc` against
`{Port int}` fails with the int-coercion cause, wrapped with the raw
key, whatever keys follow. -/
theorem c8_fail_fast_witness :
    unmarshal [] exFieldsPort = .ok exFieldsPort ∧
    assignValue exFieldsPort (splitUnderscore (lit "PORT")) (lit "abc") =
      .error (.err (lit "cannot parse \"abc\" as int: strconv.ParseInt: parsing \"abc\": invalid syntax")) ∧
    unmarshal ([] ++ (lit "PORT", lit "abc") :: [(lit "X", lit "1")]) exFieldsPort =
      .error (.err (lit "xconfigdotenv: Unmarshal: key " ++ goQuote (lit "PORT") ++ lit ": " ++
        lit "cannot parse \"abc\" as int: strconv.ParseInt: parsing \"abc\": invalid syntax")) :=
  ⟨rfl, rfl, c8_fail_fast [] [(lit "X", lit "1")] (lit "PORT") (lit "abc")
    exFieldsPort exFieldsPort _ rfl rfl⟩

/-- A single `time.Duration` field `Timeout`. -/
def exFieldsTimeout : List FieldV := [(lit "Timeout", GoType.duration, GoVal.vduration 0)]

/-- C9: a duration-kind field is coerced through the duration grammar:
`1h30m` yields exactly ninety minutes (5 400 000 000 000 ns), and `abc`
fails with the per-key scalar-coercion error. -/
theorem c9_duration_coercion :
    unmarshal [(lit "TIMEOUT", lit "1h30m")] exFieldsTimeout =
      .ok [(lit "Timeout", GoType.duration, GoVal.vduration 5400000000000)] ∧
    (5400000000000 : Int) = 90 * 60 * 1000000000 ∧
    unmarshal [(lit "TIMEOUT", lit "abc")] exFieldsTimeout =
      .error (.err (lit "xconfigdotenv: Unmarshal: key \"TIMEOUT\": cannot parse \"abc\" as Duration: time: invalid duration \"abc\"")) :=
  ⟨rfl, by norm_num, rfl⟩

/-- The composite kinds that have no terminal-leaf coercion rule. -/
def isCompositeKind : GoType → Bool
  | .map _ _ => true
  | .slice _ => true
  | .struct _ _ => true
  | _ => false

/-- C10: when the committed match consumes all segments (empty leftover)
but the matched field is a mapping, sequence or nested-record field, the
key fails with the "unsupported kind" error — it is neither assigned nor
silently ignored; the terminal coercion path (`setBasicValue`) accepts
only scalar kinds, durations and optional references to them. -/
theorem c10_terminal_composite_unsupported (fields : List FieldV) (parts : List Str)
    (rawVal : Str) (p i : Nat) (f : FieldV)
    (hres : resolveMatch fields parts parts.length = some (p, i, f))
    (hdrop : parts.drop p = [])
    (hcomp : isCompositeKind f.2.1 = true) :
    assignValue fields parts rawVal =
      .error (.err (lit "unsupported kind " ++ kindStr f.2.1 ++
        lit " for value " ++ goQuote rawVal)) := by
  obtain ⟨n, t, v⟩ := f
  rw [assignValue, assignValueF, hres]
  cases t <;> simp only [hdrop] <;>
    simp_all [isCompositeKind, setBasicValue, kindStr, Except.map]

/-- A single string-keyed string-valued mapping field `Tags`. -/
def exFieldsTags : List FieldV := [(lit "Tags", GoType.map GoType.str GoType.str, GoVal.vmap none)]

/-- Witness for C10: key `TAGS` with no leftover against the mapping
field `Tags` fails with the unsupported-kind error. -/
theorem c10_terminal_composite_unsupported_witness :
    resolveMatch exFieldsTags [lit "TAGS"] ([lit "TAGS"] : List Str).length =
      some (1, 0, (lit "Tags", GoType.map GoType.str GoType.str, GoVal.vmap none)) ∧
    ([lit "TAGS"] : List Str).drop 1 = [] ∧
    isCompositeKind (GoType.map GoType.str GoType.str) = true ∧
    assignValue exFieldsTags [lit "TAGS"] (lit "v") =
      .error (.err (lit "unsupported kind " ++ kindStr (GoType.map GoType.str GoType.str) ++
        lit " for value " ++ goQuote (lit "v"))) :=
  ⟨rfl, rfl, rfl,
    c10_terminal_composite_unsupported exFieldsTags [lit "TAGS"] (lit "v") 1 0 _ rfl rfl rfl⟩

/-- No field of the `{Items []string}` record matches a candidate that
strictly extends `items`. -/
theorem fieldMatches_items_false (sv : Option (List GoVal)) (x : Str) (hx : x ≠ []) :
    fieldMatches (lit "Items", GoType.slice GoType.str, GoVal.vslice sv)
      (lit "items" ++ x) = false := by
  simp only [fieldMatches, Bool.or_eq_false_iff, beq_eq_false_iff_ne, ne_eq]
  constructor
  · show ¬(normalize (lit "Items") = lit "items" ++ x)
    intro he
    exact ne_append_of_ne_nil (lit "items") x hx (by rw [← he]; rfl)
  · show ¬(normalize (typeName (GoType.slice GoType.str)) = lit "items" ++ x)
    intro he
    have h2 : ([] : Str) = lit "items" ++ x := he
    rw [show lit "items" ++ x = 'i' :: (lit "tems" ++ x) from rfl] at h2
    cases h2

/-- C6: assigning index `i` into a sequence field whose current value
has length `L ≤ i` grows the sequence to exactly `i + 1` elements —
the existing elements stay at their positions (the grown sequence is
the old one followed by zero values) and the element at `i` receives the
coerced value; this covers both an absent (`nil`, `sv = none`) and a
present sequence.  The second conjunct states the resulting length. -/
theorem c6_sequence_growth (sv : Option (List GoVal)) (s raw : Str) (n : Nat)
    (h1 : atoi s = some (n : Int))
    (h2 : (sv.getD []).length ≤ n) :
    assignValue [(lit "Items", GoType.slice GoType.str, GoVal.vslice sv)] [lit "ITEMS", s] raw =
      .ok [(lit "Items", GoType.slice GoType.str, GoVal.vslice (some
        (((sv.getD []) ++ List.replicate (n + 1 - (sv.getD []).length) (GoVal.vstr [])).set n
          (GoVal.vstr raw))))] ∧
    (((sv.getD []) ++ List.replicate (n + 1 - (sv.getD []).length) (GoVal.vstr [])).set n
        (GoVal.vstr raw)).length = n + 1 := by
  have hnorm := atoi_some_normalize_ne_nil s _ h1
  have hj : normalize (joinUnderscore (([lit "ITEMS", s] : List Str).take 2)) =
      lit "items" ++ normalize s := by
    rw [normalize_join]
    show normalize (lit "ITEMS") ++ (normalize s ++ []) = _
    rw [List.append_nil]
    rfl
  have hcand2 : findFieldIdx [(lit "Items", GoType.slice GoType.str, GoVal.vslice sv)]
      (normalize (joinUnderscore (([lit "ITEMS", s] : List Str).take 2))) = none := by
    rw [hj, findFieldIdx, if_neg (by simp [fieldMatches_items_false sv _ hnorm]), findFieldIdx]
  have hres : resolveMatch [(lit "Items", GoType.slice GoType.str, GoVal.vslice sv)]
      [lit "ITEMS", s] (([lit "ITEMS", s] : List Str).length) =
      some (1, 0, (lit "Items", GoType.slice GoType.str, GoVal.vslice sv)) := by
    show resolveMatch _ _ 2 = _
    rw [resolveMatch_of_no_longer _ _ 2 (by omega) ?hno]
    · rfl
    · case hno =>
        intro q hq1 hq2
        have hq : q = 2 := by omega
        subst hq
        exact hcand2
  refine ⟨?_, ?_⟩
  · rw [assignValue, assignValueF, hres]
    dsimp only [asSlice, List.drop]
    rw [h1]
    dsimp only []
    rw [if_pos (show ((sv.getD []).length : Int) ≤ (n : Int) from by exact_mod_cast h2)]
    rw [if_neg ?hpanic]
    case hpanic =>
      push_neg
      constructor
      · omega
      · rw [List.length_append, List.length_replicate]
        have ht : ((n : Int) + 1).toNat = n + 1 := by omega
        rw [ht]
        push_cast
        omega
    have ht : ((n : Int) + 1).toNat = n + 1 := by omega
    have ht2 : ((n : Int)).toNat = n := by omega
    rw [ht, ht2]
    rfl
  · rw [List.length_set, List.length_append, List.length_replicate]
    omega

/-- Witness for C6: `ITEMS_2=x` into an absent (`nil`) sequence yields a
sequence of length 3 whose first two elements are zero values and whose
index 2 holds the coerced `x`. -/
theorem c6_sequence_growth_witness :
    atoi (lit "2") = some ((2 : Nat) : Int) ∧
    ((Option.none.getD ([] : List GoVal)).length ≤ 2) ∧
    (assignValue [(lit "Items", GoType.slice GoType.str, GoVal.vslice none)]
        [lit "ITEMS", lit "2"] (lit "x") =
      .ok [(lit "Items", GoType.slice GoType.str, GoVal.vslice (some
        (((Option.none.getD ([] : List GoVal)) ++
            List.replicate (2 + 1 - (Option.none.getD ([] : List GoVal)).length)
              (GoVal.vstr [])).set 2 (GoVal.vstr (lit "x")))))] ∧
    (((Option.none.getD ([] : List GoVal)) ++
        List.replicate (2 + 1 - (Option.none.getD ([] : List GoVal)).length)
          (GoVal.vstr [])).set 2 (GoVal.vstr (lit "x"))).length = 2 + 1) :=
  ⟨rfl, by decide, c6_sequence_growth none (lit "2") (lit "x") 2 rfl (by decide)⟩

/-- No field of the `{Tags map[string]string}` record matches a
candidate that strictly extends `tags`. -/
theorem fieldMatches_tags_false (mv : Option (List (Str × GoVal))) (x : Str) (hx : x ≠ []) :
    fieldMatches (lit "Tags", GoType.map GoType.str GoType.str, GoVal.vmap mv)
      (lit "tags" ++ x) = false := by
  simp only [fieldMatches, Bool.or_eq_false_iff, beq_eq_false_iff_ne, ne_eq]
  constructor
  · show ¬(normalize (lit "Tags") = lit "tags" ++ x)
    intro he
    exact ne_append_of_ne_nil (lit "tags") x hx (by rw [← he]; rfl)
  · show ¬(normalize (typeName (GoType.map GoType.str GoType.str)) = lit "tags" ++ x)
    intro he
    have h2 : ([] : Str) = lit "tags" ++ x := he
    rw [show lit "tags" ++ x = 't' :: (lit "ags" ++ x) from rfl] at h2
    cases h2

/-- Normalizing and concatenating a non-empty list of segments that each
normalize to something non-empty is non-empty. -/
theorem flatMap_normalize_ne_nil (l : List Str) (hl : l ≠ [])
    (hseg : ∀ r ∈ l, normalize r ≠ []) : l.flatMap normalize ≠ [] := by
  match l, hl with
  | r0 :: rs, _ =>
    rw [List.flatMap_cons]
    intro he
    rcases List.append_eq_nil.mp he with ⟨he1, _⟩
    exact hseg r0 (List.mem_cons_self ..) he1

/-- C7: when the matched run lands on a string-keyed mapping field with
non-empty leftover segments, the stored entry key is exactly the raw,
un-normalized leftover segments rejoined with `_` — case and
underscores preserved, only the consumed leading segment removed.
(The segments are assumed not to normalize to nothing, which keeps a
longer run from also matching the mapping field itself; every segment
with a character other than `_` qualifies, e.g. any segment of
`TAGS_Foo_Bar`.) -/
theorem c7_mapping_key_fidelity (mv : Option (List (Str × GoVal))) (rest : List Str)
    (raw : Str) (hne : rest ≠ [])
    (hseg : ∀ r ∈ rest, normalize r ≠ []) :
    assignValue [(lit "Tags", GoType.map GoType.str GoType.str, GoVal.vmap mv)]
        (lit "TAGS" :: rest) raw =
      .ok [(lit "Tags", GoType.map GoType.str GoType.str, GoVal.vmap (some
        (mapSetIndex (mv.getD []) (joinUnderscore rest) (GoVal.vstr raw))))] := by
  match rest, hne with
  | r0 :: rs, _ =>
  have hcand : ∀ q, 1 < q → q ≤ (lit "TAGS" :: r0 :: rs : List Str).length →
      findFieldIdx [(lit "Tags", GoType.map GoType.str GoType.str, GoVal.vmap mv)]
        (normalize (joinUnderscore ((lit "TAGS" :: r0 :: rs : List Str).take q))) = none := by
    intro q hq1 hq2
    match q, hq1 with
    | j + 2, _ =>
      have htake : (lit "TAGS" :: r0 :: rs : List Str).take (j + 2) =
          lit "TAGS" :: (r0 :: rs : List Str).take (j + 1) := rfl
      rw [htake, normalize_join, List.flatMap_cons]
      have hx : ((r0 :: rs : List Str).take (j + 1)).flatMap normalize ≠ [] := by
        apply flatMap_normalize_ne_nil
        · simp
        · intro r hr
          exact hseg r (List.take_subset _ _ hr)
      have hj : normalize (lit "TAGS") ++ ((r0 :: rs : List Str).take (j + 1)).flatMap normalize =
          lit "tags" ++ ((r0 :: rs : List Str).take (j + 1)).flatMap normalize := rfl
      rw [hj, findFieldIdx,
        if_neg (by rw [fieldMatches_tags_false mv _ hx]; simp), findFieldIdx]
  have hres : resolveMatch [(lit "Tags", GoType.map GoType.str GoType.str, GoVal.vmap mv)]
      (lit "TAGS" :: r0 :: rs) ((lit "TAGS" :: r0 :: rs : List Str).length) =
      some (1, 0, (lit "Tags", GoType.map GoType.str GoType.str, GoVal.vmap mv)) := by
    rw [resolveMatch_of_no_longer _ _ _ (by simp) hcand]
    rfl
  rw [assignValue, assignValueF, hres]
  dsimp only [asMap, List.drop]
  rfl

/-- Witness for C7: key `TAGS_Foo_Bar=v` against an absent (`nil`)
mapping yields the single entry with key exactly `Foo_Bar`. -/
theorem c7_mapping_key_fidelity_witness :
    ([lit "Foo", lit "Bar"] : List Str) ≠ [] ∧
    (∀ r ∈ ([lit "Foo", lit "Bar"] : List Str), normalize r ≠ []) ∧
    assignValue [(lit "Tags", GoType.map GoType.str GoType.str, GoVal.vmap none)]
        (lit "TAGS" :: [lit "Foo", lit "Bar"]) (lit "v") =
      .ok [(lit "Tags", GoType.map GoType.str GoType.str, GoVal.vmap (some
        (mapSetIndex (Option.none.getD []) (joinUnderscore [lit "Foo", lit "Bar"])
          (GoVal.vstr (lit "v")))))] :=
  ⟨by decide, by decide,
    c7_mapping_key_fidelity none [lit "Foo", lit "Bar"] (lit "v") (by decide) (by decide)⟩

end XCfg
